import Mathlib

/-!
Verification development for the caption-extraction layer of the
Bengali image-captioning data-preparation code (`caption_parsers.py`).

The Python source is shallowly embedded:
* strings are Lean `String`s, with the handful of Python string
  operations the code uses (`strip`, `lower`, `split("#")[0]`,
  `replace`, `endswith`, substring test, `int(...)`) re-implemented as
  structurally recursive functions over `List Char` so that concrete
  evaluations reduce inside the kernel;
* a Python `dict` (insertion-ordered, unique keys) is an association
  list `List (String × List String)`, with `setdefault(k, []).append`,
  `d[k] = v` and `d.update(...)` embedded as `appendCaption`, `assign`
  and `updateMap`;
* the filesystem is an oracle `fsExists : String → Bool` used both for
  `os.path.exists` and `Path(...).exists()`;
* file contents are given pre-parsed (the zip/XML/CSV/JSON byte-level
  decoding is outside the embedding); the error outcomes of that
  decoding (bad zip file, XML parse failure, file not found, JSON
  decode error) are explicit constructors of the per-format source
  types, mirroring the exception sites of the Python code.
-/

namespace CaptionParsers

/-! ## Python string primitives -/

/-- Whitespace recognised by Python `str.strip()` (ASCII part). -/
def isPySpace (c : Char) : Bool :=
  c = ' ' || c = '\t' || c = '\n' || c = '\r' || c = '\x0b' || c = '\x0c'

/-- Models Python `str.strip()`: drop whitespace from both ends. -/
def pyStrip (s : String) : String :=
  ⟨((s.data.dropWhile isPySpace).reverse.dropWhile isPySpace).reverse⟩

/-- ASCII lower-casing of one character (models `str.lower` on the
file names the collector sees, which are ASCII). -/
def lowerChar (c : Char) : Char :=
  if 'A' ≤ c ∧ c ≤ 'Z' then Char.ofNat (c.toNat + 32) else c

/-- Models Python `str.lower()`. -/
def pyLower (s : String) : String := ⟨s.data.map lowerChar⟩

/-- `listStartsWith p l` : `p` is an initial segment of `l`. -/
def listStartsWith : List Char → List Char → Bool
  | [], _ => true
  | _ :: _, [] => false
  | p :: ps, c :: cs => p == c && listStartsWith ps cs

/-- Models Python `s.endswith(suffix)`. -/
def pyEndsWith (s suffix : String) : Bool :=
  listStartsWith suffix.data.reverse s.data.reverse

/-- `containsSub l pat` : `pat` occurs as a contiguous sublist of `l`
(Python `pat in s`; the empty pattern is contained in everything). -/
def containsSub : List Char → List Char → Bool
  | [], pat => pat.isEmpty
  | c :: cs, pat => listStartsWith pat (c :: cs) || containsSub cs pat

/-- Models Python `sub in s`. -/
def pyContains (s sub : String) : Bool := containsSub s.data sub.data

/-- The characters of a string strictly before the first `'#'`. -/
def takeUntilHash : List Char → List Char
  | [] => []
  | c :: cs => if c = '#' then [] else c :: takeUntilHash cs

/-- Models Python `s.split("#")[0]`: the prefix of `s` before the
first `'#'` (the whole of `s` when there is none). -/
def takeBeforeHash (s : String) : String := ⟨takeUntilHash s.data⟩

/-- Fuel-driven worker for `pyReplace`; the fuel is the length of the
remaining character list, which bounds the number of steps. -/
def replaceFuel (pat rep : List Char) : Nat → List Char → List Char
  | 0, s => s
  | _ + 1, [] => []
  | fuel + 1, c :: cs =>
    if listStartsWith pat (c :: cs) && !pat.isEmpty then
      rep ++ replaceFuel pat rep fuel (List.drop (pat.length - 1) cs)
    else
      c :: replaceFuel pat rep fuel cs

/-- Models Python `s.replace(pat, rep)` (left-to-right,
non-overlapping occurrences; `pat` non-empty in all uses here). -/
def pyReplace (s pat rep : String) : String :=
  ⟨replaceFuel pat.data rep.data s.data.length s.data⟩

/-- Digit accumulator for `pyInt`. -/
def digitsToNatAux : Nat → List Char → Option Nat
  | acc, [] => some acc
  | acc, c :: cs =>
    if '0' ≤ c ∧ c ≤ '9' then digitsToNatAux (acc * 10 + (c.toNat - 48)) cs
    else none

/-- Parse a non-empty all-digit character list. -/
def digitsToNat : List Char → Option Nat
  | [] => none
  | c :: cs => digitsToNatAux 0 (c :: cs)

/-- Models Python `int(s)` on decimal text: surrounding whitespace is
ignored, an optional sign is allowed, anything else fails. -/
def pyInt (s : String) : Option Int :=
  match (pyStrip s).data with
  | '-' :: ds => (digitsToNat ds).map (fun n => -(n : Int))
  | '+' :: ds => (digitsToNat ds).map (fun n => (n : Int))
  | ds => (digitsToNat ds).map (fun n => (n : Int))

/-- Decimal digits of `n`, most significant first (fuel-driven). -/
def natDigits : Nat → Nat → List Char
  | 0, _ => []
  | fuel + 1, n =>
    if n < 10 then [Char.ofNat (48 + n)]
    else natDigits fuel (n / 10) ++ [Char.ofNat (48 + n % 10)]

/-- Decimal rendering of a natural number. -/
def natToStr (n : Nat) : String := ⟨natDigits (n + 1) n⟩

/-- Decimal rendering of an integer (Python `str` on `int`). -/
def intToStr : Int → String
  | .ofNat n => natToStr n
  | .negSucc n => "-" ++ natToStr (n + 1)

/-- Models `os.path.join(a, b)` for the POSIX two-argument cases the
code produces. -/
def joinPath (a b : String) : String :=
  if b.data.head? = some '/' then b
  else if a = "" then b
  else if a.data.getLast? = some '/' then a ++ b
  else a ++ "/" ++ b

/-! ## The caption mapping (a Python dict) -/

/-- `Dict[str, List[str]]` with insertion order, as an association
list with unique keys. -/
abbrev CaptionMapping := List (String × List String)

/-- Python dict lookup `m[k]` / `m.get(k)` (first binding wins; the
construction operations below keep keys unique). -/
def getVal : CaptionMapping → String → Option (List String)
  | [], _ => none
  | (k', v) :: rest, k => if k' = k then some v else getVal rest k

/-- `k in m`. -/
def hasKey (m : CaptionMapping) (k : String) : Bool := (getVal m k).isSome

/-- The keys of the mapping, in insertion order. -/
def keysOf (m : CaptionMapping) : List String := m.map (fun kv => kv.1)

/-- Models `m.setdefault(k, []).append(c)`: extend the sequence held
at `k` (starting from `[]` when `k` is absent, in which case `k` is
inserted at the end). -/
def appendCaption : CaptionMapping → String → String → CaptionMapping
  | [], k, c => [(k, [c])]
  | (k', v) :: rest, k, c =>
    if k' = k then (k', v ++ [c]) :: rest
    else (k', v) :: appendCaption rest k c

/-- Models `m[k] = v`: replace the binding of `k` in place, or insert
it at the end when absent. -/
def assign : CaptionMapping → String → List String → CaptionMapping
  | [], k, v => [(k, v)]
  | (k', v') :: rest, k, v =>
    if k' = k then (k, v) :: rest
    else (k', v') :: assign rest k v

/-- Models `m1.update(m2)`: assign every binding of `m2` into `m1`,
in `m2`'s order. -/
def updateMap (m1 m2 : CaptionMapping) : CaptionMapping :=
  m2.foldl (fun acc kv => assign acc kv.1 kv.2) m1

/-! ## XLSX extractor (`XLSXCaptionParser`) -/

/-- A parsed XML element: tag, the `t` attribute (cell type marker),
the element text, and the child elements. -/
inductive XmlElem where
  | mk : String → Option String → Option String → List XmlElem → XmlElem

def XmlElem.tag : XmlElem → String
  | .mk t _ _ _ => t

def XmlElem.attrT : XmlElem → Option String
  | .mk _ a _ _ => a

def XmlElem.text : XmlElem → Option String
  | .mk _ _ tx _ => tx

def XmlElem.children : XmlElem → List XmlElem
  | .mk _ _ _ c => c

/-- What `zipfile.ZipFile` + `ElementTree` deliver for one `.xlsx`
file.  `badZip` is `zipfile.BadZipFile` raised on open; `parseError`
is any XML parse failure inside the container (caught by the generic
handler before any row is processed); `zip sharedTexts sheet` is a
readable container: `sharedTexts` is `none` when
`xl/sharedStrings.xml` is absent and otherwise carries the `.text` of
each `t` element found, and `sheet` is `none` when
`xl/worksheets/sheet1.xml` is absent and otherwise carries the `row`
elements in order. -/
inductive XlsxSource where
  | badZip
  | parseError
  | zip (sharedTexts : Option (List (Option String))) (sheet : Option (List XmlElem))

/-- `get_cell_value` (lines 128–141): resolve a cell's text, going
through the shared-string table when the cell type marker is `"s"`;
an absent/empty `v` element, a non-numeric shared-string index, or an
out-of-range one, yield `None`. -/
def get_cell_value (shared_strings : List String) (cell : XmlElem) : Option String :=
  let cell_type := cell.attrT
  match cell.children.find? (fun v => pyEndsWith v.tag "v") with
  | none => none
  | some value_elem =>
    match value_elem.text with
    | none => none
    | some t =>
      if t = "" then none
      else if cell_type = some "s" then
        match pyInt t with
        | none => none
        | some idx => if 0 ≤ idx then shared_strings[idx.toNat]? else none
      else some t

/-- Name normalization of the XLSX extractor (lines 149–151): strip a
`#...` suffix, then rewrite the `*MG*` placeholder to `IMG_`. -/
def xlsxNormalizeName (s : String) : String :=
  let s1 := if pyContains s "#" then takeBeforeHash s else s
  pyReplace s1 "*MG*" "IMG_"

/-- The body of the XLSX row loop (lines 118–161) for one row. -/
def processXlsxRow (shared_strings : List String) (images_path : String)
    (validate_images : Bool) (fsExists : String → Bool)
    (caption_mapping : CaptionMapping) (row : XmlElem) : CaptionMapping :=
  let cells := row.children.filter (fun el => pyEndsWith el.tag "c")
  match cells with
  | c0 :: c1 :: _ =>
    match get_cell_value shared_strings c0 with
    | some img0 =>
      if img0 = "" then caption_mapping
      else
        let img_name_val := xlsxNormalizeName img0
        let img_path :=
          if images_path ≠ "" then joinPath images_path img_name_val else img_name_val
        if !validate_images || fsExists img_path then
          match get_cell_value shared_strings c1 with
          | some cap =>
            if cap = "" then caption_mapping
            else appendCaption caption_mapping img_path ("<start> " ++ pyStrip cap ++ " <end>")
          | none => caption_mapping
        else caption_mapping
    | none => caption_mapping
  | _ => caption_mapping

/-- `XLSXCaptionParser.extract` (lines 69–168).  `has_header` is the
constructor argument; exceptions escaping the `try` body leave the
still-empty mapping to be returned. -/
def XLSXCaptionParser.extract (has_header : Bool) (src : XlsxSource)
    (images_path : String) (validate_images : Bool) (fsExists : String → Bool) :
    CaptionMapping :=
  match src with
  | .badZip => []
  | .parseError => []
  | .zip sharedTexts sheet =>
    let shared_strings : List String := (sharedTexts.getD []).filterMap id
    match sheet with
    | none => []
    | some rows =>
      let start_row := if has_header ∧ rows.length > 0 then 1 else 0
      (rows.drop start_row).foldl
        (processXlsxRow shared_strings images_path validate_images fsExists) []

/-! ## CSV extractor (`CSVCaptionParser`) -/

/-- One `csv.DictReader` row: header-name / field pairs. -/
abbrev CsvRow := List (String × String)

/-- `row.get(k)`. -/
def rowGet : CsvRow → String → Option String
  | [], _ => none
  | (k', v) :: rest, k => if k' = k then some v else rowGet rest k

/-- What opening and reading one `.csv` file delivers.
`fileNotFound` is `FileNotFoundError`; `readError` is any failure
while materialising `list(reader)` (e.g. a decode error), caught
before any row is processed. -/
inductive CsvSource where
  | fileNotFound
  | readError
  | rows (rs : List CsvRow)

/-- Name normalization of the CSV extractor (lines 221–222): strip a
`#...` suffix only. -/
def csvNormalizeName (s : String) : String :=
  if pyContains s "#" then takeBeforeHash s else s

/-- The body of the CSV row loop (lines 211–232) for one row. -/
def processCsvRow (images_path : String) (validate_images : Bool)
    (fsExists : String → Bool)
    (caption_mapping : CaptionMapping) (row : CsvRow) : CaptionMapping :=
  match rowGet row "caption_id", rowGet row "bengali_caption" with
  | some img_name, some caption_bn =>
    if img_name = "" ∨ caption_bn = "" then caption_mapping
    else
      let img_name1 := csvNormalizeName img_name
      let img_path :=
        if images_path ≠ "" then joinPath images_path img_name1 else img_name1
      if validate_images && !fsExists img_path then caption_mapping
      else
        appendCaption caption_mapping img_path
          (" <start> " ++ pyStrip caption_bn ++ " <end> ")
  | _, _ => caption_mapping

/-- `CSVCaptionParser.extract` (lines 183–241). -/
def CSVCaptionParser.extract (src : CsvSource) (images_path : String)
    (validate_images : Bool) (fsExists : String → Bool) : CaptionMapping :=
  match src with
  | .fileNotFound => []
  | .readError => []
  | .rows rs => rs.foldl (processCsvRow images_path validate_images fsExists) []

/-! ## JSON extractor (`JSONCaptionParser`) -/

/-- A JSON value as `json.load` delivers it (numbers restricted to
integers; the caption files carry no floats). -/
inductive JsonValue where
  | str : String → JsonValue
  | num : Int → JsonValue
  | bool : Bool → JsonValue
  | null : JsonValue
  | arr : List JsonValue → JsonValue
  | obj : List (String × JsonValue) → JsonValue

def isNull : JsonValue → Bool
  | .null => true
  | _ => false

def isDict : JsonValue → Bool
  | .obj _ => true
  | _ => false

/-- Lookup in an object's field list. -/
def objGet : List (String × JsonValue) → String → Option JsonValue
  | [], _ => none
  | (k', v) :: rest, k => if k' = k then some v else objGet rest k

/-- `item[k]` when `item` is a dict holding `k`. -/
def getField (item : JsonValue) (k : String) : Option JsonValue :=
  match item with
  | .obj fs => objGet fs k
  | _ => none

/-- `k in item` for a dict. -/
def hasField (item : JsonValue) (k : String) : Bool := (getField item k).isSome

/-- The malformed-item test of line 291:
`not isinstance(item, dict) or 'filename' not in item or 'caption' not in item`. -/
def malformedItem (item : JsonValue) : Bool :=
  !isDict item || !hasField item "filename" || !hasField item "caption"

mutual

/-- Python `repr` of a JSON value (quoting simplified to plain single
quotes, enough for the use `str()` has on non-string values). -/
def pyRepr : JsonValue → String
  | .str s => "'" ++ s ++ "'"
  | .num n => intToStr n
  | .bool b => if b then "True" else "False"
  | .null => "None"
  | .arr xs => "[" ++ pyReprList xs ++ "]"
  | .obj fs => "\x7b" ++ pyReprFields fs ++ "\x7d"

/-- Comma-separated `repr`s of a list's elements. -/
def pyReprList : List JsonValue → String
  | [] => ""
  | [x] => pyRepr x
  | x :: y :: xs => pyRepr x ++ ", " ++ pyReprList (y :: xs)

/-- Comma-separated `repr`s of an object's fields. -/
def pyReprFields : List (String × JsonValue) → String
  | [] => ""
  | [kv] => "'" ++ kv.1 ++ "': " ++ pyRepr kv.2
  | kv :: kv2 :: fs =>
    "'" ++ kv.1 ++ "': " ++ pyRepr kv.2 ++ ", " ++ pyReprFields (kv2 :: fs)

end

/-- Models Python `str(v)` for a JSON value. -/
def pyStr (v : JsonValue) : String :=
  match v with
  | .str s => s
  | v => pyRepr v

/-- Line 305: format the caption list, dropping `None` entries. -/
def jsonFormatCaptions (raw_captions : List JsonValue) : List String :=
  (raw_captions.filter (fun c => !isNull c)).map
    (fun c => "<start>" ++ pyStrip (pyStr c) ++ " ")

/-- What opening and decoding one `.json` file delivers.  `openError`
is a failure to open/read the file (caught by the generic handler);
`decodeError` is `json.JSONDecodeError`. -/
inductive JsonSource where
  | openError
  | decodeError
  | ok (root : JsonValue)

/-- The body of the JSON item loop (lines 287–313) for one item.
`.error m` means an exception escaped the loop body with the mapping
at `m` — the one raise site is `item['filename'].strip()` when the
filename value is not a string (`AttributeError`). -/
def processJsonItem (images_path : String) (validate_images : Bool)
    (fsExists : String → Bool)
    (caption_mapping : CaptionMapping) (item : JsonValue) :
    Except CaptionMapping CaptionMapping :=
  if malformedItem item then .ok caption_mapping
  else
    match getField item "filename" with
    | some (.str fn) =>
      let img_name_abs := joinPath images_path (pyStrip fn)
      let raw_captions :=
        match getField item "caption" with
        | some (.arr xs) => xs
        | some v => [v]
        | none => []
      let formatted_captions := jsonFormatCaptions raw_captions
      if !validate_images || fsExists img_name_abs then
        if formatted_captions ≠ [] then
          .ok (assign caption_mapping img_name_abs formatted_captions)
        else .ok caption_mapping
      else .ok caption_mapping
    | _ => .error caption_mapping

/-- The JSON item loop; stops early when an item raises. -/
def processJsonItems (images_path : String) (validate_images : Bool)
    (fsExists : String → Bool) :
    CaptionMapping → List JsonValue → Except CaptionMapping CaptionMapping
  | m, [] => .ok m
  | m, item :: rest =>
    match processJsonItem images_path validate_images fsExists m item with
    | .ok m1 => processJsonItems images_path validate_images fsExists m1 rest
    | .error p => .error p

/-- The mapping a loop result leaves behind: the built mapping on
normal completion, the partial mapping at the raise site otherwise
(both are what `extract` hands back). -/
def exceptVal : Except CaptionMapping CaptionMapping → CaptionMapping
  | .ok m => m
  | .error m => m

/-- `JSONCaptionParser.extract` (lines 260–322): a non-list root
yields an empty mapping with a diagnostic; an exception inside the
loop leaves the mapping built so far to be returned. -/
def JSONCaptionParser.extract (src : JsonSource) (images_path : String)
    (validate_images : Bool) (fsExists : String → Bool) : CaptionMapping :=
  match src with
  | .openError => []
  | .decodeError => []
  | .ok root =>
    match root with
    | .arr items =>
      match processJsonItems images_path validate_images fsExists [] items with
      | .ok m => m
      | .error p => p
    | _ => []

/-! ## Collector (`collect_all_caption_data`) -/

/-- One file as all three parsers would see its bytes: any route may
be asked to open any file, so every view is present (a non-zip file
viewed as XLSX is `.badZip`, and so on). -/
structure FileContent where
  asXlsx : XlsxSource
  asCsv : CsvSource
  asJson : JsonSource

/-- One `(root, file)` pair produced by `os.walk`, with the file's
content. -/
structure WalkEntry where
  root : String
  file : String
  content : FileContent

/-- The per-file body of the collector loop (lines 354–398): classify
by name, resolve the image directory, run the extractor.  `none` is
`continue` — no extractor runs (unmatched file, or the BanglaView
route with its image directory absent). -/
def processFile (base_dir : String) (validate_images : Bool)
    (fsExists : String → Bool) (root file : String) (content : FileContent) :
    Option CaptionMapping :=
  let lower_file := pyLower file
  if pyEndsWith lower_file ".xlsx" && pyContains lower_file "captioning" then
    let img_dir0 := joinPath root "image"
    let img_dir := if fsExists img_dir0 then img_dir0 else root
    some (XLSXCaptionParser.extract true content.asXlsx img_dir validate_images fsExists)
  else if pyEndsWith lower_file ".csv" && pyContains lower_file "ban-cap" then
    let img_dir0 := joinPath (joinPath base_dir "Flickr 8k Dataset") "Images"
    let img_dir := if fsExists img_dir0 then img_dir0 else base_dir
    some (CSVCaptionParser.extract content.asCsv img_dir validate_images fsExists)
  else if lower_file = "banglaview_dataset.xlsx" then
    let img_dir := joinPath (joinPath base_dir "flickr30k_images") "flickr30k_images"
    if fsExists img_dir then
      some (XLSXCaptionParser.extract false content.asXlsx img_dir validate_images fsExists)
    else none
  else if pyEndsWith lower_file ".json" && pyContains lower_file "captions" then
    let img_dir0 := joinPath root "images"
    let img_dir :=
      if fsExists img_dir0 then img_dir0
      else joinPath (joinPath base_dir "rxxch9vw59.2") "images"
    some (JSONCaptionParser.extract content.asJson img_dir validate_images fsExists)
  else none

/-- One collector step: run `processFile` and merge with
`all_captions.update(captions)` (line 398). -/
def collectStep (base_dir : String) (validate_images : Bool)
    (fsExists : String → Bool) (all_captions : CaptionMapping)
    (e : WalkEntry) : CaptionMapping :=
  match processFile base_dir validate_images fsExists e.root e.file e.content with
  | some captions => updateMap all_captions captions
  | none => all_captions

/-- `collect_all_caption_data` (lines 328–400) over the walked file
list. -/
def collect_all_caption_data (base_dir : String) (validate_images : Bool)
    (fsExists : String → Bool) (walk : List WalkEntry) : CaptionMapping :=
  walk.foldl (collectStep base_dir validate_images fsExists) []

/-! ## The three caption wrappers (the f-string patterns of lines 159,
231 and 305) -/

/-- Spreadsheet wrapper: `f"<start> {..} <end>"`. -/
def xlsxFormat (t : String) : String := "<start> " ++ t ++ " <end>"

/-- Delimited-text wrapper: `f" <start> {..} <end> "`. -/
def csvFormat (t : String) : String := " <start> " ++ t ++ " <end> "

/-- Structured-record wrapper: `"<start>" + .. + " "`. -/
def jsonFormat (t : String) : String := "<start>" ++ t ++ " "

/-- The value-shape invariant: every caption in every sequence of `m`
is `fmt` applied to some stripped raw string. -/
def AllCaptionsFmt (fmt : String → String) (m : CaptionMapping) : Prop :=
  ∀ k caps, getVal m k = some caps → ∀ c ∈ caps, ∃ raw, c = fmt (pyStrip raw)

/-- `KeysSub mt mf` : every key of `mt` is a key of `mf`. -/
def KeysSub (mt mf : CaptionMapping) : Prop :=
  ∀ k, hasKey mt k = true → hasKey mf k = true

/-! ## Lemmas about the mapping operations -/

theorem getVal_appendCaption_self (m : CaptionMapping) (k c : String) :
    getVal (appendCaption m k c) k = some ((getVal m k).getD [] ++ [c]) := by
  induction m with
  | nil => simp [appendCaption, getVal]
  | cons kv rest ih =>
    obtain ⟨k1, v1⟩ := kv
    by_cases h : k1 = k
    · subst h
      simp [appendCaption, getVal]
    · simp [appendCaption, getVal, h, ih]

theorem getVal_appendCaption_ne (m : CaptionMapping) (k c k2 : String)
    (h : k2 ≠ k) : getVal (appendCaption m k c) k2 = getVal m k2 := by
  have hks : ¬(k = k2) := fun hh => h hh.symm
  induction m with
  | nil => simp [appendCaption, getVal, hks]
  | cons kv rest ih =>
    obtain ⟨k1, v1⟩ := kv
    by_cases h1 : k1 = k
    · subst h1
      simp [appendCaption, getVal, hks]
    · by_cases h2 : k1 = k2
      · simp [appendCaption, getVal, h1, h2, hks, h]
      · simp [appendCaption, getVal, h1, h2, ih]

theorem getVal_assign_self (m : CaptionMapping) (k : String) (v : List String) :
    getVal (assign m k v) k = some v := by
  induction m with
  | nil => simp [assign, getVal]
  | cons kv rest ih =>
    obtain ⟨k1, v1⟩ := kv
    by_cases h : k1 = k
    · subst h
      simp [assign, getVal]
    · simp [assign, getVal, h, ih]

theorem getVal_assign_ne (m : CaptionMapping) (k : String) (v : List String)
    (k2 : String) (h : k2 ≠ k) : getVal (assign m k v) k2 = getVal m k2 := by
  have hks : ¬(k = k2) := fun hh => h hh.symm
  induction m with
  | nil => simp [assign, getVal, hks]
  | cons kv rest ih =>
    obtain ⟨k1, v1⟩ := kv
    by_cases h1 : k1 = k
    · subst h1
      simp [assign, getVal, hks]
    · by_cases h2 : k1 = k2
      · simp [assign, getVal, h1, h2, hks, h]
      · simp [assign, getVal, h1, h2, ih]

theorem hasKey_cons (k1 : String) (v1 : List String) (rest : CaptionMapping)
    (k : String) :
    hasKey ((k1, v1) :: rest) k = if k1 = k then true else hasKey rest k := by
  by_cases h : k1 = k <;> simp [hasKey, getVal, h]

theorem hasKey_appendCaption (m : CaptionMapping) (k c k2 : String) :
    hasKey (appendCaption m k c) k2 = true ↔ (k2 = k ∨ hasKey m k2 = true) := by
  by_cases h : k2 = k
  · subst h
    simp [hasKey, getVal_appendCaption_self]
  · simp [hasKey, getVal_appendCaption_ne m k c k2 h, h]

theorem hasKey_assign (m : CaptionMapping) (k : String) (v : List String)
    (k2 : String) :
    hasKey (assign m k v) k2 = true ↔ (k2 = k ∨ hasKey m k2 = true) := by
  by_cases h : k2 = k
  · subst h
    simp [hasKey, getVal_assign_self]
  · simp [hasKey, getVal_assign_ne m k v k2 h, h]

theorem hasKey_iff_mem_keys (m : CaptionMapping) (k : String) :
    hasKey m k = true ↔ k ∈ keysOf m := by
  induction m with
  | nil => simp [hasKey, getVal, keysOf]
  | cons kv rest ih =>
    obtain ⟨k1, v1⟩ := kv
    rw [hasKey_cons]
    by_cases h : k1 = k
    · subst h
      simp [keysOf]
    · simp only [h, if_false, keysOf, List.map_cons, List.mem_cons]
      constructor
      · intro hh
        exact Or.inr (ih.1 hh)
      · intro hh
        rcases hh with hh | hh
        · exact absurd hh.symm h
        · exact ih.2 hh

theorem getVal_eq_none_of_not_mem_keys (m : CaptionMapping) (k : String)
    (h : k ∉ keysOf m) : getVal m k = none := by
  induction m with
  | nil => rfl
  | cons kv rest ih =>
    obtain ⟨k1, v1⟩ := kv
    simp only [keysOf, List.map_cons, List.mem_cons] at h
    push_neg at h
    have h1 : ¬(k1 = k) := fun hh => h.1 hh.symm
    simp only [getVal, h1, if_false]
    exact ih (by simpa [keysOf] using h.2)

theorem getVal_updateMap_of_none (m1 m2 : CaptionMapping) (k : String)
    (h : getVal m2 k = none) : getVal (updateMap m1 m2) k = getVal m1 k := by
  induction m2 generalizing m1 with
  | nil => rfl
  | cons kv rest ih =>
    obtain ⟨k1, v1⟩ := kv
    simp only [getVal] at h
    by_cases h1 : k1 = k
    · simp [h1] at h
    · rw [if_neg h1] at h
      show getVal (updateMap (assign m1 k1 v1) rest) k = getVal m1 k
      rw [ih (assign m1 k1 v1) h, getVal_assign_ne m1 k1 v1 k (fun hh => h1 hh.symm)]

theorem getVal_updateMap_of_some (m1 m2 : CaptionMapping) (k : String)
    (v : List String) (hnd : (keysOf m2).Nodup) (h : getVal m2 k = some v) :
    getVal (updateMap m1 m2) k = some v := by
  induction m2 generalizing m1 with
  | nil => simp [getVal] at h
  | cons kv rest ih =>
    obtain ⟨k1, v1⟩ := kv
    simp only [keysOf, List.map_cons, List.nodup_cons] at hnd
    show getVal (updateMap (assign m1 k1 v1) rest) k = some v
    simp only [getVal] at h
    by_cases h1 : k1 = k
    · subst h1
      rw [if_pos rfl] at h
      injection h with h
      subst h
      rw [getVal_updateMap_of_none _ rest k1
        (getVal_eq_none_of_not_mem_keys rest k1 (by simpa [keysOf] using hnd.1))]
      exact getVal_assign_self m1 k1 v1
    · rw [if_neg h1] at h
      exact ih (assign m1 k1 v1) (by simpa [keysOf] using hnd.2) h

theorem keysOf_appendCaption (m : CaptionMapping) (k c : String) :
    keysOf (appendCaption m k c) =
      if hasKey m k then keysOf m else keysOf m ++ [k] := by
  induction m with
  | nil => simp [appendCaption, keysOf, hasKey, getVal]
  | cons kv rest ih =>
    obtain ⟨k1, v1⟩ := kv
    rw [hasKey_cons]
    by_cases h : k1 = k
    · subst h
      simp [appendCaption, keysOf]
    · show keysOf (if k1 = k then (k1, v1 ++ [c]) :: rest
        else (k1, v1) :: appendCaption rest k c) = _
      rw [if_neg h, if_neg h]
      show k1 :: keysOf (appendCaption rest k c) = _
      rw [ih]
      by_cases h2 : hasKey rest k = true <;> simp [h2, keysOf]

theorem keysOf_assign (m : CaptionMapping) (k : String) (v : List String) :
    keysOf (assign m k v) = if hasKey m k then keysOf m else keysOf m ++ [k] := by
  induction m with
  | nil => simp [assign, keysOf, hasKey, getVal]
  | cons kv rest ih =>
    obtain ⟨k1, v1⟩ := kv
    rw [hasKey_cons]
    by_cases h : k1 = k
    · subst h
      simp [assign, keysOf]
    · show keysOf (if k1 = k then (k, v) :: rest
        else (k1, v1) :: assign rest k v) = _
      rw [if_neg h, if_neg h]
      show k1 :: keysOf (assign rest k v) = _
      rw [ih]
      by_cases h2 : hasKey rest k = true <;> simp [h2, keysOf]

theorem nodup_keys_appendCaption (m : CaptionMapping) (k c : String)
    (h : (keysOf m).Nodup) : (keysOf (appendCaption m k c)).Nodup := by
  rw [keysOf_appendCaption]
  by_cases h2 : hasKey m k = true
  · simpa [h2] using h
  · have hk : k ∉ keysOf m := by
      intro hm
      exact h2 ((hasKey_iff_mem_keys m k).2 hm)
    rw [if_neg (by simpa using h2), List.nodup_append]
    refine ⟨h, List.nodup_singleton k, ?_⟩
    intro a ha hb
    simp only [List.mem_singleton] at hb
    subst hb
    exact hk ha

theorem nodup_keys_assign (m : CaptionMapping) (k : String) (v : List String)
    (h : (keysOf m).Nodup) : (keysOf (assign m k v)).Nodup := by
  rw [keysOf_assign]
  by_cases h2 : hasKey m k = true
  · simpa [h2] using h
  · have hk : k ∉ keysOf m := by
      intro hm
      exact h2 ((hasKey_iff_mem_keys m k).2 hm)
    rw [if_neg (by simpa using h2), List.nodup_append]
    refine ⟨h, List.nodup_singleton k, ?_⟩
    intro a ha hb
    simp only [List.mem_singleton] at hb
    subst hb
    exact hk ha

/-- Fold preservation of an invariant. -/
theorem foldl_preserves {α β : Type} (P : α → Prop) (f : α → β → α)
    (hstep : ∀ a b, P a → P (f a b)) :
    ∀ (l : List β) (a : α), P a → P (l.foldl f a) := by
  intro l
  induction l with
  | nil => intro a ha; exact ha
  | cons x xs ih =>
    intro a ha
    exact ih _ (hstep a x ha)

/-- Fold preservation of a relation between two parallel folds. -/
theorem foldl_rel {α β : Type} (R : α → α → Prop) (f g : α → β → α)
    (hstep : ∀ a a2 b, R a a2 → R (f a b) (g a2 b)) :
    ∀ (l : List β) (a a2 : α), R a a2 → R (l.foldl f a) (l.foldl g a2) := by
  intro l
  induction l with
  | nil => intro a a2 ha; exact ha
  | cons x xs ih =>
    intro a a2 ha
    exact ih _ _ (hstep a a2 x ha)

/-! ## Shape of one loop step, and key uniqueness of the outputs -/

theorem processXlsxRow_shape (sst : List String) (ip : String) (v : Bool)
    (ex : String → Bool) (m : CaptionMapping) (row : XmlElem) :
    processXlsxRow sst ip v ex m row = m ∨
    ∃ k c, processXlsxRow sst ip v ex m row = appendCaption m k c := by
  simp only [processXlsxRow]
  repeat' split
  all_goals first
    | exact Or.inl rfl
    | exact Or.inr ⟨_, _, rfl⟩

theorem processCsvRow_shape (ip : String) (v : Bool) (ex : String → Bool)
    (m : CaptionMapping) (row : CsvRow) :
    processCsvRow ip v ex m row = m ∨
    ∃ k c, processCsvRow ip v ex m row = appendCaption m k c := by
  simp only [processCsvRow]
  repeat' split
  all_goals first
    | exact Or.inl rfl
    | exact Or.inr ⟨_, _, rfl⟩

theorem processJsonItem_shape (ip : String) (v : Bool) (ex : String → Bool)
    (m : CaptionMapping) (item : JsonValue) :
    processJsonItem ip v ex m item = .ok m ∨
    processJsonItem ip v ex m item = .error m ∨
    ∃ k vs, processJsonItem ip v ex m item = .ok (assign m k vs) := by
  simp only [processJsonItem]
  repeat' split
  all_goals first
    | exact Or.inl rfl
    | exact Or.inr (Or.inl rfl)
    | exact Or.inr (Or.inr ⟨_, _, rfl⟩)

theorem nodup_keys_processXlsxRow (sst : List String) (ip : String) (v : Bool)
    (ex : String → Bool) (m : CaptionMapping) (row : XmlElem)
    (h : (keysOf m).Nodup) : (keysOf (processXlsxRow sst ip v ex m row)).Nodup := by
  rcases processXlsxRow_shape sst ip v ex m row with h1 | ⟨k, c, h1⟩ <;> rw [h1]
  · exact h
  · exact nodup_keys_appendCaption m k c h

theorem nodup_keys_processCsvRow (ip : String) (v : Bool) (ex : String → Bool)
    (m : CaptionMapping) (row : CsvRow)
    (h : (keysOf m).Nodup) : (keysOf (processCsvRow ip v ex m row)).Nodup := by
  rcases processCsvRow_shape ip v ex m row with h1 | ⟨k, c, h1⟩ <;> rw [h1]
  · exact h
  · exact nodup_keys_appendCaption m k c h

theorem nodup_keys_processJsonItems (ip : String) (v : Bool) (ex : String → Bool)
    (items : List JsonValue) :
    ∀ m : CaptionMapping, (keysOf m).Nodup →
      (keysOf (exceptVal (processJsonItems ip v ex m items))).Nodup := by
  induction items with
  | nil => intro m hm; exact hm
  | cons item rest ih =>
    intro m hm
    show (keysOf (exceptVal
      (match processJsonItem ip v ex m item with
       | .ok m1 => processJsonItems ip v ex m1 rest
       | .error p => .error p))).Nodup
    rcases processJsonItem_shape ip v ex m item with h1 | h1 | ⟨k, vs, h1⟩ <;> rw [h1]
    · exact ih m hm
    · exact hm
    · exact ih _ (nodup_keys_assign m k vs hm)

theorem nodup_keys_xlsx_extract (hh : Bool) (src : XlsxSource) (ip : String)
    (v : Bool) (ex : String → Bool) :
    (keysOf (XLSXCaptionParser.extract hh src ip v ex)).Nodup := by
  cases src with
  | badZip => simp [XLSXCaptionParser.extract, keysOf]
  | parseError => simp [XLSXCaptionParser.extract, keysOf]
  | zip sst sheet =>
    cases sheet with
    | none => simp [XLSXCaptionParser.extract, keysOf]
    | some rows =>
      simp only [XLSXCaptionParser.extract]
      exact foldl_preserves (fun mm => (keysOf mm).Nodup) _
        (fun a b ha => nodup_keys_processXlsxRow _ _ _ _ a b ha) _ []
        (by simp [keysOf])

theorem nodup_keys_csv_extract (src : CsvSource) (ip : String) (v : Bool)
    (ex : String → Bool) :
    (keysOf (CSVCaptionParser.extract src ip v ex)).Nodup := by
  cases src with
  | fileNotFound => simp [CSVCaptionParser.extract, keysOf]
  | readError => simp [CSVCaptionParser.extract, keysOf]
  | rows rs =>
    simp only [CSVCaptionParser.extract]
    exact foldl_preserves (fun mm => (keysOf mm).Nodup) _
      (fun a b ha => nodup_keys_processCsvRow _ _ _ a b ha) _ []
      (by simp [keysOf])

theorem json_extract_arr (items : List JsonValue) (ip : String) (v : Bool)
    (ex : String → Bool) :
    JSONCaptionParser.extract (.ok (.arr items)) ip v ex
      = exceptVal (processJsonItems ip v ex [] items) := by
  show (match processJsonItems ip v ex [] items with
        | .ok m => m
        | .error p => p) = _
  cases processJsonItems ip v ex [] items <;> rfl

theorem nodup_keys_json_extract (src : JsonSource) (ip : String) (v : Bool)
    (ex : String → Bool) :
    (keysOf (JSONCaptionParser.extract src ip v ex)).Nodup := by
  cases src with
  | openError => simp [JSONCaptionParser.extract, keysOf]
  | decodeError => simp [JSONCaptionParser.extract, keysOf]
  | ok root =>
    cases root with
    | arr items =>
      rw [json_extract_arr]
      exact nodup_keys_processJsonItems ip v ex items [] (by simp [keysOf])
    | str s => simp [JSONCaptionParser.extract, keysOf]
    | num n => simp [JSONCaptionParser.extract, keysOf]
    | bool b => simp [JSONCaptionParser.extract, keysOf]
    | null => simp [JSONCaptionParser.extract, keysOf]
    | obj fs => simp [JSONCaptionParser.extract, keysOf]

/-- Every mapping the collector merges in has pairwise-distinct keys. -/
theorem nodup_keys_processFile (base_dir : String) (v : Bool)
    (ex : String → Bool) (root file : String) (content : FileContent)
    (M : CaptionMapping)
    (h : processFile base_dir v ex root file content = some M) :
    (keysOf M).Nodup := by
  simp only [processFile] at h
  split at h
  · injection h with h
    subst h
    exact nodup_keys_xlsx_extract _ _ _ _ _
  · split at h
    · injection h with h
      subst h
      exact nodup_keys_csv_extract _ _ _ _
    · split at h
      · split at h
        · injection h with h
          subst h
          exact nodup_keys_xlsx_extract _ _ _ _ _
        · exact absurd h (by simp)
      · split at h
        · injection h with h
          subst h
          exact nodup_keys_json_extract _ _ _ _
        · exact absurd h (by simp)

/-! ## C1 — collector merge law -/

/-- C1: when the collector processes one more file whose extracted
mapping `M2` holds key `K`, the consolidated mapping's value at `K`
is exactly `M2`'s value — a full replacement of whatever any earlier
file (processed anywhere in the preceding walk) had stored at `K`,
never a concatenation of caption sequences. -/
theorem C1_collector_merge_overwrites (base_dir : String) (validate_images : Bool)
    (fsExists : String → Bool) (walk : List WalkEntry) (e : WalkEntry)
    (M2 : CaptionMapping) (K : String) (v : List String)
    (hM2 : processFile base_dir validate_images fsExists e.root e.file e.content = some M2)
    (hK : getVal M2 K = some v) :
    getVal (collect_all_caption_data base_dir validate_images fsExists (walk ++ [e])) K
      = some v := by
  show getVal ((walk ++ [e]).foldl (collectStep base_dir validate_images fsExists) []) K
    = some v
  rw [List.foldl_append]
  show getVal (collectStep base_dir validate_images fsExists
    (walk.foldl (collectStep base_dir validate_images fsExists) []) e) K = some v
  rw [collectStep, hM2]
  exact getVal_updateMap_of_some _ M2 K v
    (nodup_keys_processFile base_dir validate_images fsExists e.root e.file e.content M2 hM2)
    hK

/-- C1 witness: two delimited-text files, walked in this order, both
map `b/a.jpg`; the consolidated value is the second file's value. -/
theorem C1_collector_merge_overwrites_witness :
    getVal (collect_all_caption_data "b" false (fun _ => false)
      ([⟨"b", "first-ban-cap.csv",
          ⟨.badZip, .rows [[("caption_id", "a.jpg"), ("bengali_caption", "one")]], .openError⟩⟩]
       ++ [⟨"b", "second-ban-cap.csv",
          ⟨.badZip, .rows [[("caption_id", "a.jpg"), ("bengali_caption", "two")]], .openError⟩⟩]))
      "b/a.jpg" = some [" <start> two <end> "] :=
  C1_collector_merge_overwrites "b" false (fun _ => false)
    [⟨"b", "first-ban-cap.csv",
        ⟨.badZip, .rows [[("caption_id", "a.jpg"), ("bengali_caption", "one")]], .openError⟩⟩]
    ⟨"b", "second-ban-cap.csv",
        ⟨.badZip, .rows [[("caption_id", "a.jpg"), ("bengali_caption", "two")]], .openError⟩⟩
    [("b/a.jpg", [" <start> two <end> "])] "b/a.jpg" [" <start> two <end> "]
    (by decide) (by decide)

/-! ## C2 — per-format caption wrappers -/

theorem data_append_eq (a b : String) : (a ++ b).data = a.data ++ b.data := by
  cases a
  cases b
  rfl

theorem allCaptionsFmt_nil (fmt : String → String) : AllCaptionsFmt fmt [] := by
  intro k caps h
  simp [getVal] at h

theorem allCaptionsFmt_appendCaption (fmt : String → String) (m : CaptionMapping)
    (k c : String) (hc : ∃ raw, c = fmt (pyStrip raw)) (hm : AllCaptionsFmt fmt m) :
    AllCaptionsFmt fmt (appendCaption m k c) := by
  intro k2 caps hg x hx
  by_cases h : k2 = k
  · subst h
    rw [getVal_appendCaption_self] at hg
    injection hg with hg
    subst hg
    rcases List.mem_append.1 hx with hx | hx
    · cases hcv : getVal m k2 with
      | none => rw [hcv] at hx; simp at hx
      | some old =>
        rw [hcv] at hx
        exact hm k2 old hcv x (by simpa using hx)
    · simp only [List.mem_singleton] at hx
      subst hx
      exact hc
  · rw [getVal_appendCaption_ne m k c k2 h] at hg
    exact hm k2 caps hg x hx

theorem allCaptionsFmt_assign (fmt : String → String) (m : CaptionMapping)
    (k : String) (vs : List String) (hvs : ∀ x ∈ vs, ∃ raw, x = fmt (pyStrip raw))
    (hm : AllCaptionsFmt fmt m) : AllCaptionsFmt fmt (assign m k vs) := by
  intro k2 caps hg x hx
  by_cases h : k2 = k
  · subst h
    rw [getVal_assign_self] at hg
    injection hg with hg
    subst hg
    exact hvs x hx
  · rw [getVal_assign_ne m k vs k2 h] at hg
    exact hm k2 caps hg x hx

theorem processXlsxRow_captions_fmt (sst : List String) (ip : String) (v : Bool)
    (ex : String → Bool) (m : CaptionMapping) (row : XmlElem)
    (hm : AllCaptionsFmt xlsxFormat m) :
    AllCaptionsFmt xlsxFormat (processXlsxRow sst ip v ex m row) := by
  simp only [processXlsxRow]
  repeat' split
  all_goals first
    | exact hm
    | exact allCaptionsFmt_appendCaption xlsxFormat m _ _ ⟨_, rfl⟩ hm

theorem processCsvRow_captions_fmt (ip : String) (v : Bool)
    (ex : String → Bool) (m : CaptionMapping) (row : CsvRow)
    (hm : AllCaptionsFmt csvFormat m) :
    AllCaptionsFmt csvFormat (processCsvRow ip v ex m row) := by
  simp only [processCsvRow]
  repeat' split
  all_goals first
    | exact hm
    | exact allCaptionsFmt_appendCaption csvFormat m _ _ ⟨_, rfl⟩ hm

theorem jsonFormatCaptions_fmt (raws : List JsonValue) :
    ∀ x ∈ jsonFormatCaptions raws, ∃ raw, x = jsonFormat (pyStrip raw) := by
  intro x hx
  simp only [jsonFormatCaptions, List.mem_map] at hx
  rcases hx with ⟨c, hc, rfl⟩
  exact ⟨pyStr c, rfl⟩

theorem processJsonItem_captions_fmt (ip : String) (v : Bool)
    (ex : String → Bool) (m : CaptionMapping) (item : JsonValue)
    (hm : AllCaptionsFmt jsonFormat m) :
    AllCaptionsFmt jsonFormat (exceptVal (processJsonItem ip v ex m item)) := by
  simp only [processJsonItem]
  repeat' split
  all_goals first
    | exact hm
    | exact allCaptionsFmt_assign jsonFormat m _ _ (jsonFormatCaptions_fmt _) hm

theorem processJsonItems_captions_fmt (ip : String) (v : Bool)
    (ex : String → Bool) (items : List JsonValue) :
    ∀ m : CaptionMapping, AllCaptionsFmt jsonFormat m →
      AllCaptionsFmt jsonFormat (exceptVal (processJsonItems ip v ex m items)) := by
  induction items with
  | nil => intro m hm; exact hm
  | cons item rest ih =>
    intro m hm
    show AllCaptionsFmt jsonFormat (exceptVal
      (match processJsonItem ip v ex m item with
       | .ok m1 => processJsonItems ip v ex m1 rest
       | .error p => .error p))
    have hone := processJsonItem_captions_fmt ip v ex m item hm
    cases hstep : processJsonItem ip v ex m item with
    | ok m1 =>
      rw [hstep] at hone
      exact ih m1 hone
    | error p =>
      rw [hstep] at hone
      exact hone

/-- C2: every caption emitted by the spreadsheet extractor is
`"<start> " ++ trimmed ++ " <end>"`, every caption emitted by the
delimited-text extractor is `" <start> " ++ trimmed ++ " <end> "`
(one extra leading and trailing space), every caption emitted by the
structured-record extractor is `"<start>" ++ trimmed ++ " "` with no
end marker, and the three wrappers are pairwise distinct on every
argument. -/
theorem C2_caption_formats (hh : Bool) (xs : XlsxSource) (cs : CsvSource)
    (js : JsonSource) (ip : String) (v : Bool) (ex : String → Bool) (t : String) :
    (∀ k caps, getVal (XLSXCaptionParser.extract hh xs ip v ex) k = some caps →
      ∀ c ∈ caps, ∃ raw, c = xlsxFormat (pyStrip raw))
    ∧ (∀ k caps, getVal (CSVCaptionParser.extract cs ip v ex) k = some caps →
      ∀ c ∈ caps, ∃ raw, c = csvFormat (pyStrip raw))
    ∧ (∀ k caps, getVal (JSONCaptionParser.extract js ip v ex) k = some caps →
      ∀ c ∈ caps, ∃ raw, c = jsonFormat (pyStrip raw))
    ∧ xlsxFormat t ≠ csvFormat t
    ∧ xlsxFormat t ≠ jsonFormat t
    ∧ csvFormat t ≠ jsonFormat t := by
  refine ⟨?_, ?_, ?_, ?_, ?_, ?_⟩
  · show AllCaptionsFmt xlsxFormat (XLSXCaptionParser.extract hh xs ip v ex)
    cases xs with
    | badZip => exact allCaptionsFmt_nil _
    | parseError => exact allCaptionsFmt_nil _
    | zip sst sheet =>
      cases sheet with
      | none => exact allCaptionsFmt_nil _
      | some rows =>
        simp only [XLSXCaptionParser.extract]
        exact foldl_preserves (AllCaptionsFmt xlsxFormat) _
          (fun a b ha => processXlsxRow_captions_fmt _ _ _ _ a b ha) _ []
          (allCaptionsFmt_nil _)
  · show AllCaptionsFmt csvFormat (CSVCaptionParser.extract cs ip v ex)
    cases cs with
    | fileNotFound => exact allCaptionsFmt_nil _
    | readError => exact allCaptionsFmt_nil _
    | rows rs =>
      simp only [CSVCaptionParser.extract]
      exact foldl_preserves (AllCaptionsFmt csvFormat) _
        (fun a b ha => processCsvRow_captions_fmt _ _ _ a b ha) _ []
        (allCaptionsFmt_nil _)
  · show AllCaptionsFmt jsonFormat (JSONCaptionParser.extract js ip v ex)
    cases js with
    | openError => exact allCaptionsFmt_nil _
    | decodeError => exact allCaptionsFmt_nil _
    | ok root =>
      cases root with
      | arr items =>
        rw [json_extract_arr]
        exact processJsonItems_captions_fmt ip v ex items [] (allCaptionsFmt_nil _)
      | str s => exact allCaptionsFmt_nil _
      | num n => exact allCaptionsFmt_nil _
      | bool b => exact allCaptionsFmt_nil _
      | null => exact allCaptionsFmt_nil _
      | obj fs => exact allCaptionsFmt_nil _
  · intro h
    have h2 := congrArg (fun s : String => s.data.length) h
    simp only [xlsxFormat, csvFormat, data_append_eq, List.length_append,
      List.length_cons, List.length_nil] at h2
    omega
  · intro h
    have h2 := congrArg (fun s : String => s.data.length) h
    simp only [xlsxFormat, jsonFormat, data_append_eq, List.length_append,
      List.length_cons, List.length_nil] at h2
    omega
  · intro h
    have h2 := congrArg (fun s : String => s.data.length) h
    simp only [csvFormat, jsonFormat, data_append_eq, List.length_append,
      List.length_cons, List.length_nil] at h2
    omega

/-- C2 witness: concrete captions produced by each extractor carry
that extractor's wrapper. -/
theorem C2_caption_formats_witness :
    (∃ raw, "<start> hi <end>" = xlsxFormat (pyStrip raw))
    ∧ (∃ raw, " <start> cool <end> " = csvFormat (pyStrip raw))
    ∧ (∃ raw, "<start>x " = jsonFormat (pyStrip raw)) := by
  have h := C2_caption_formats false
    (.zip none (some [XmlElem.mk "row" none none
      [XmlElem.mk "c" none none [XmlElem.mk "v" none (some "p.jpg") []],
       XmlElem.mk "c" none none [XmlElem.mk "v" none (some " hi ") []]]]))
    (.rows [[("caption_id", "i.jpg"), ("bengali_caption", " cool ")]])
    (.ok (.arr [.obj [("filename", .str "a.jpg"), ("caption", .arr [.str "x"])]]))
    "r" false (fun _ => false) ""
  refine ⟨?_, ?_, ?_⟩
  · exact h.1 "r/p.jpg" ["<start> hi <end>"] (by decide) "<start> hi <end>" (by decide)
  · exact h.2.1 "r/i.jpg" [" <start> cool <end> "] (by decide) " <start> cool <end> "
      (by decide)
  · exact h.2.2.1 "r/a.jpg" ["<start>x "] (by decide) "<start>x " (by decide)

/-! ## C3 — extractor error containment -/

/-- C3: every recoverable failure is contained inside `extract`.  The
embedding is total, so no exception crosses the boundary by
construction; this theorem pins down the returned value on each
failure condition: a bad container, an XML parse failure or a missing
worksheet (spreadsheet), a missing file or an unreadable body
(delimited text), an unreadable file, a decode failure or a non-list
root (structured records) all return the empty mapping, and an
exception inside the structured-record item loop returns exactly the
partial mapping built before the raise. -/
theorem C3_error_containment (hh : Bool) (ip : String) (v : Bool)
    (ex : String → Bool) (sst : Option (List (Option String)))
    (rootv : JsonValue) (items : List JsonValue) (p : CaptionMapping) :
    XLSXCaptionParser.extract hh .badZip ip v ex = []
    ∧ XLSXCaptionParser.extract hh .parseError ip v ex = []
    ∧ XLSXCaptionParser.extract hh (.zip sst none) ip v ex = []
    ∧ CSVCaptionParser.extract .fileNotFound ip v ex = []
    ∧ CSVCaptionParser.extract .readError ip v ex = []
    ∧ JSONCaptionParser.extract .openError ip v ex = []
    ∧ JSONCaptionParser.extract .decodeError ip v ex = []
    ∧ ((∀ xs, rootv ≠ JsonValue.arr xs) →
        JSONCaptionParser.extract (.ok rootv) ip v ex = [])
    ∧ (processJsonItems ip v ex [] items = .error p →
        JSONCaptionParser.extract (.ok (.arr items)) ip v ex = p) := by
  refine ⟨rfl, rfl, rfl, rfl, rfl, rfl, rfl, ?_, ?_⟩
  · intro hna
    cases rootv with
    | arr xs => exact absurd rfl (hna xs)
    | str s => rfl
    | num n => rfl
    | bool b => rfl
    | null => rfl
    | obj fs => rfl
  · intro herr
    rw [json_extract_arr, herr]
    rfl

/-- C3 witness: a structured-record file whose second record has a
non-string filename raises mid-loop; the call returns the partial
mapping holding only the first record, and a non-list root returns
the empty mapping. -/
theorem C3_error_containment_witness :
    JSONCaptionParser.extract (.ok (.str "oops")) "r" true (fun _ => true) = []
    ∧ JSONCaptionParser.extract (.ok (.arr
        [.obj [("filename", .str "a.jpg"), ("caption", .str "c")],
         .obj [("filename", .num 3), ("caption", .str "d")],
         .obj [("filename", .str "z.jpg"), ("caption", .str "e")]]))
        "r" true (fun _ => true)
      = [("r/a.jpg", ["<start>c "])] := by
  have h := C3_error_containment true "r" true (fun _ => true) none (.str "oops")
    [.obj [("filename", .str "a.jpg"), ("caption", .str "c")],
     .obj [("filename", .num 3), ("caption", .str "d")],
     .obj [("filename", .str "z.jpg"), ("caption", .str "e")]]
    [("r/a.jpg", ["<start>c "])]
  refine ⟨h.2.2.2.2.2.2.2.1 ?_, h.2.2.2.2.2.2.2.2 ?_⟩
  · intro xs hx
    cases hx
  · rfl

/-! ## C4 — validation yields a key-subset -/

theorem keysSub_append_both (mt mf : CaptionMapping) (k c c2 : String)
    (h : KeysSub mt mf) : KeysSub (appendCaption mt k c) (appendCaption mf k c2) := by
  intro k2 hk
  rcases (hasKey_appendCaption mt k c k2).1 hk with h1 | h1
  · exact (hasKey_appendCaption mf k c2 k2).2 (Or.inl h1)
  · exact (hasKey_appendCaption mf k c2 k2).2 (Or.inr (h k2 h1))

theorem keysSub_append_right (mt mf : CaptionMapping) (k c : String)
    (h : KeysSub mt mf) : KeysSub mt (appendCaption mf k c) :=
  fun k2 hk => (hasKey_appendCaption mf k c k2).2 (Or.inr (h k2 hk))

theorem keysSub_assign_both (mt mf : CaptionMapping) (k : String)
    (v v2 : List String) (h : KeysSub mt mf) :
    KeysSub (assign mt k v) (assign mf k v2) := by
  intro k2 hk
  rcases (hasKey_assign mt k v k2).1 hk with h1 | h1
  · exact (hasKey_assign mf k v2 k2).2 (Or.inl h1)
  · exact (hasKey_assign mf k v2 k2).2 (Or.inr (h k2 h1))

theorem keysSub_assign_right (mt mf : CaptionMapping) (k : String)
    (v : List String) (h : KeysSub mt mf) : KeysSub mt (assign mf k v) :=
  fun k2 hk => (hasKey_assign mf k v k2).2 (Or.inr (h k2 hk))

theorem processXlsxRow_validate_keysSub (sst : List String) (ip : String)
    (ex : String → Bool) (mt mf : CaptionMapping) (row : XmlElem)
    (h : KeysSub mt mf) :
    KeysSub (processXlsxRow sst ip true ex mt row)
      (processXlsxRow sst ip false ex mf row) := by
  simp only [processXlsxRow, Bool.not_true, Bool.not_false, Bool.false_or, Bool.true_or]
  cases hc : row.children.filter (fun el => pyEndsWith el.tag "c") with
  | nil => exact h
  | cons c0 tl =>
    cases tl with
    | nil => exact h
    | cons c1 rest2 =>
      dsimp only
      cases hg0 : get_cell_value sst c0 with
      | none => exact h
      | some img0 =>
        dsimp only
        by_cases h0 : img0 = ""
        · rw [if_pos h0, if_pos h0]
          exact h
        · rw [if_neg h0, if_neg h0]
          generalize (if ip ≠ "" then joinPath ip (xlsxNormalizeName img0)
            else xlsxNormalizeName img0) = P
          rw [if_pos trivial]
          by_cases hex : ex P = true
          · rw [if_pos hex]
            cases hg1 : get_cell_value sst c1 with
            | none => exact h
            | some cap =>
              dsimp only
              by_cases hcap : cap = ""
              · rw [if_pos hcap, if_pos hcap]
                exact h
              · rw [if_neg hcap, if_neg hcap]
                exact keysSub_append_both mt mf _ _ _ h
          · rw [if_neg hex]
            cases hg1 : get_cell_value sst c1 with
            | none => exact h
            | some cap =>
              dsimp only
              by_cases hcap : cap = ""
              · rw [if_pos hcap]
                exact h
              · rw [if_neg hcap]
                exact keysSub_append_right mt mf _ _ h

theorem processCsvRow_validate_keysSub (ip : String) (ex : String → Bool)
    (mt mf : CaptionMapping) (row : CsvRow) (h : KeysSub mt mf) :
    KeysSub (processCsvRow ip true ex mt row) (processCsvRow ip false ex mf row) := by
  simp only [processCsvRow, Bool.true_and, Bool.false_and]
  cases hg0 : rowGet row "caption_id" with
  | none => exact h
  | some img_name =>
    cases hg1 : rowGet row "bengali_caption" with
    | none => exact h
    | some caption_bn =>
      dsimp only
      by_cases h0 : img_name = "" ∨ caption_bn = ""
      · rw [if_pos h0, if_pos h0]
        exact h
      · rw [if_neg h0, if_neg h0]
        generalize (if ip ≠ "" then joinPath ip (csvNormalizeName img_name)
          else csvNormalizeName img_name) = P
        rw [if_neg (show ¬(false = true) by simp)]
        by_cases hex : ex P = true
        · rw [if_neg (show ¬((!ex P) = true) by simp [hex])]
          exact keysSub_append_both mt mf _ _ _ h
        · have hex2 : ex P = false := by
            cases hEP : ex P
            · rfl
            · exact absurd hEP hex
          rw [if_pos (show (!ex P) = true by simp [hex2])]
          exact keysSub_append_right mt mf _ _ h

theorem keysSub_json_step (ip : String) (ex : String → Bool) (rest : List JsonValue)
    (ih : ∀ mt mf : CaptionMapping, KeysSub mt mf →
      KeysSub (exceptVal (processJsonItems ip true ex mt rest))
        (exceptVal (processJsonItems ip false ex mf rest)))
    (mt mf : CaptionMapping) (h : KeysSub mt mf) (P : String) (FC : List String) :
    KeysSub
      (exceptVal (match (if ex P = true then
          (if FC ≠ [] then Except.ok (assign mt P FC) else Except.ok mt)
          else Except.ok mt : Except CaptionMapping CaptionMapping) with
        | Except.ok m1 => processJsonItems ip true ex m1 rest
        | Except.error p => Except.error p))
      (exceptVal (match (if FC ≠ [] then Except.ok (assign mf P FC)
          else Except.ok mf : Except CaptionMapping CaptionMapping) with
        | Except.ok m1 => processJsonItems ip false ex m1 rest
        | Except.error p => Except.error p)) := by
  by_cases hfc : FC ≠ []
  · by_cases hex : ex P = true
    · rw [if_pos hex, if_pos hfc, if_pos hfc]
      exact ih _ _ (keysSub_assign_both mt mf _ _ _ h)
    · rw [if_neg hex, if_pos hfc]
      exact ih _ _ (keysSub_assign_right mt mf _ _ h)
  · by_cases hex : ex P = true
    · rw [if_pos hex, if_neg hfc, if_neg hfc]
      exact ih _ _ h
    · rw [if_neg hex, if_neg hfc]
      exact ih _ _ h

theorem processJsonItems_validate_keysSub (ip : String) (ex : String → Bool)
    (items : List JsonValue) :
    ∀ mt mf : CaptionMapping, KeysSub mt mf →
      KeysSub (exceptVal (processJsonItems ip true ex mt items))
        (exceptVal (processJsonItems ip false ex mf items)) := by
  induction items with
  | nil => intro mt mf h; exact h
  | cons item rest ih =>
    intro mt mf h
    show KeysSub
      (exceptVal (match processJsonItem ip true ex mt item with
        | .ok m1 => processJsonItems ip true ex m1 rest
        | .error p => .error p))
      (exceptVal (match processJsonItem ip false ex mf item with
        | .ok m1 => processJsonItems ip false ex m1 rest
        | .error p => .error p))
    simp only [processJsonItem, Bool.not_true, Bool.not_false, Bool.false_or, Bool.true_or]
    by_cases hmal : malformedItem item = true
    · rw [if_pos hmal, if_pos hmal]
      exact ih mt mf h
    · rw [if_neg hmal, if_neg hmal]
      cases hfn : getField item "filename" with
      | none => exact h
      | some fnv =>
        cases fnv with
        | str fn =>
          dsimp only
          rw [if_pos trivial]
          exact keysSub_json_step ip ex rest ih mt mf h (joinPath ip (pyStrip fn)) _
        | num n => exact h
        | bool b => exact h
        | null => exact h
        | arr xs => exact h
        | obj fs => exact h

/-- C4: for each of the three extractors, on the same source file and
image root, every key present in the mapping returned with
`validate_images = true` is also present in the mapping returned with
`validate_images = false` — the unvalidated key set is a superset of
the validated one. -/
theorem C4_validation_superset (hh : Bool) (xs : XlsxSource) (cs : CsvSource)
    (js : JsonSource) (ip : String) (ex : String → Bool) (k : String) :
    (hasKey (XLSXCaptionParser.extract hh xs ip true ex) k = true →
     hasKey (XLSXCaptionParser.extract hh xs ip false ex) k = true)
    ∧ (hasKey (CSVCaptionParser.extract cs ip true ex) k = true →
       hasKey (CSVCaptionParser.extract cs ip false ex) k = true)
    ∧ (hasKey (JSONCaptionParser.extract js ip true ex) k = true →
       hasKey (JSONCaptionParser.extract js ip false ex) k = true) := by
  refine ⟨?_, ?_, ?_⟩
  · cases xs with
    | badZip => exact fun hk => hk
    | parseError => exact fun hk => hk
    | zip sst sheet =>
      cases sheet with
      | none => exact fun hk => hk
      | some rows =>
        simp only [XLSXCaptionParser.extract]
        exact foldl_rel KeysSub _ _
          (fun a a2 b ha => processXlsxRow_validate_keysSub _ _ _ a a2 b ha)
          _ [] [] (fun _ hk => hk) k
  · cases cs with
    | fileNotFound => exact fun hk => hk
    | readError => exact fun hk => hk
    | rows rs =>
      simp only [CSVCaptionParser.extract]
      exact foldl_rel KeysSub _ _
        (fun a a2 b ha => processCsvRow_validate_keysSub _ _ a a2 b ha)
        _ [] [] (fun _ hk => hk) k
  · cases js with
    | openError => exact fun hk => hk
    | decodeError => exact fun hk => hk
    | ok root =>
      cases root with
      | arr items =>
        rw [json_extract_arr, json_extract_arr]
        exact processJsonItems_validate_keysSub ip ex items [] [] (fun _ hk => hk) k
      | str s => exact fun hk => hk
      | num n => exact fun hk => hk
      | bool b => exact fun hk => hk
      | null => exact fun hk => hk
      | obj fs => exact fun hk => hk

/-- C4 witness: a key surviving validation (the image exists) is
present in the unvalidated mapping too, for all three extractors. -/
theorem C4_validation_superset_witness :
    hasKey (XLSXCaptionParser.extract false
      (.zip none (some [XmlElem.mk "row" none none
        [XmlElem.mk "c" none none [XmlElem.mk "v" none (some "p.jpg") []],
         XmlElem.mk "c" none none [XmlElem.mk "v" none (some "hi") []]]]))
      "r" false (fun _ => true)) "r/p.jpg" = true
    ∧ hasKey (CSVCaptionParser.extract
      (.rows [[("caption_id", "i.jpg"), ("bengali_caption", "c")]])
      "r" false (fun _ => true)) "r/i.jpg" = true
    ∧ hasKey (JSONCaptionParser.extract
      (.ok (.arr [.obj [("filename", .str "a.jpg"), ("caption", .arr [.str "x"])]]))
      "r" false (fun _ => true)) "r/a.jpg" = true := by
  have h := C4_validation_superset false
    (.zip none (some [XmlElem.mk "row" none none
      [XmlElem.mk "c" none none [XmlElem.mk "v" none (some "p.jpg") []],
       XmlElem.mk "c" none none [XmlElem.mk "v" none (some "hi") []]]]))
    (.rows [[("caption_id", "i.jpg"), ("bengali_caption", "c")]])
    (.ok (.arr [.obj [("filename", .str "a.jpg"), ("caption", .arr [.str "x"])]]))
    "r" (fun _ => true)
  exact ⟨h "r/p.jpg" |>.1 (by decide), h "r/i.jpg" |>.2.1 (by decide),
    h "r/a.jpg" |>.2.2 (by decide)⟩

/-! ## C5 — shared-string resolution -/

/-- C5: for a cell carrying the shared-string type marker `"s"` whose
value element holds text `t`: when `t` parses as an in-range index
`i`, the resolved value is the shared-string table entry at `i`; an
out-of-range or non-numeric `t` resolves to `None`; and a row whose
first cell resolves to `None` contributes nothing to the mapping. -/
theorem C5_shared_string_resolution (sst : List String) (cell ve : XmlElem)
    (t : String) (hT : cell.attrT = some "s")
    (hfind : cell.children.find? (fun v => pyEndsWith v.tag "v") = some ve)
    (htext : ve.text = some t) (ht : t ≠ "") :
    (∀ i : Int, pyInt t = some i → 0 ≤ i → ∀ hlt : i.toNat < sst.length,
      get_cell_value sst cell = some (sst.get ⟨i.toNat, hlt⟩))
    ∧ (∀ i : Int, pyInt t = some i → i < 0 ∨ sst.length ≤ i.toNat →
      get_cell_value sst cell = none)
    ∧ (pyInt t = none → get_cell_value sst cell = none)
    ∧ (∀ (ip : String) (vb : Bool) (ex : String → Bool) (m : CaptionMapping)
        (row c0 c1 : XmlElem) (tl : List XmlElem),
        row.children.filter (fun el => pyEndsWith el.tag "c") = c0 :: c1 :: tl →
        get_cell_value sst c0 = none →
        processXlsxRow sst ip vb ex m row = m) := by
  have hcore : get_cell_value sst cell =
      (match pyInt t with
       | none => none
       | some idx => if 0 ≤ idx then sst[idx.toNat]? else none) := by
    simp only [get_cell_value, hfind, htext]
    rw [if_neg ht, hT, if_pos rfl]
  refine ⟨?_, ?_, ?_, ?_⟩
  · intro i hi h0 hlt
    rw [hcore, hi]
    show (if 0 ≤ i then sst[i.toNat]? else none) = _
    rw [if_pos h0]
    simp [List.getElem?_eq_getElem hlt, List.get_eq_getElem]
  · intro i hi hout
    rw [hcore, hi]
    show (if 0 ≤ i then sst[i.toNat]? else none) = none
    rcases hout with hneg | hge
    · rw [if_neg (not_le.2 hneg)]
    · by_cases h0 : 0 ≤ i
      · rw [if_pos h0]
        exact List.getElem?_eq_none hge
      · rw [if_neg h0]
  · intro hn
    rw [hcore, hn]
  · intro ip vb ex m row c0 c1 tl hfilter hnone
    simp only [processXlsxRow, hfilter, hnone]

/-- C5 witness: a one-entry shared-string table with an in-range
reference, an out-of-range reference, a non-numeric reference, and a
row whose first cell has no value element. -/
theorem C5_shared_string_resolution_witness :
    get_cell_value ["img.jpg"]
      (XmlElem.mk "c" (some "s") none [XmlElem.mk "v" none (some "0") []])
      = some "img.jpg"
    ∧ get_cell_value ["img.jpg"]
      (XmlElem.mk "c" (some "s") none [XmlElem.mk "v" none (some "5") []])
      = none
    ∧ get_cell_value ["img.jpg"]
      (XmlElem.mk "c" (some "s") none [XmlElem.mk "v" none (some "x") []])
      = none
    ∧ processXlsxRow ["img.jpg"] "r" false (fun _ => true) [("k", ["v"])]
      (XmlElem.mk "row" none none
        [XmlElem.mk "c" none none [],
         XmlElem.mk "c" none none [XmlElem.mk "v" none (some "cap") []]])
      = [("k", ["v"])] := by
  refine ⟨?_, ?_, ?_, ?_⟩
  · exact (C5_shared_string_resolution ["img.jpg"]
      (XmlElem.mk "c" (some "s") none [XmlElem.mk "v" none (some "0") []])
      (XmlElem.mk "v" none (some "0") []) "0" rfl rfl rfl (by decide)).1
      0 (by decide) (by decide) (by decide)
  · exact (C5_shared_string_resolution ["img.jpg"]
      (XmlElem.mk "c" (some "s") none [XmlElem.mk "v" none (some "5") []])
      (XmlElem.mk "v" none (some "5") []) "5" rfl rfl rfl (by decide)).2.1
      5 (by decide) (Or.inr (by decide))
  · exact (C5_shared_string_resolution ["img.jpg"]
      (XmlElem.mk "c" (some "s") none [XmlElem.mk "v" none (some "x") []])
      (XmlElem.mk "v" none (some "x") []) "x" rfl rfl rfl (by decide)).2.2.1
      (by decide)
  · exact (C5_shared_string_resolution ["img.jpg"]
      (XmlElem.mk "c" (some "s") none [XmlElem.mk "v" none (some "0") []])
      (XmlElem.mk "v" none (some "0") []) "0" rfl rfl rfl (by decide)).2.2.2
      "r" false (fun _ => true) [("k", ["v"])]
      (XmlElem.mk "row" none none
        [XmlElem.mk "c" none none [],
         XmlElem.mk "c" none none [XmlElem.mk "v" none (some "cap") []]])
      (XmlElem.mk "c" none none [])
      (XmlElem.mk "c" none none [XmlElem.mk "v" none (some "cap") []]) []
      rfl rfl

/-! ## C6 — structured-record skip rule (corrected) -/

/-- C6 counterexample: the record `{"filename": "a.jpg"}` is
record-shaped and has the name field — one of the two fields — yet
line 291 classifies it as malformed and the loop skips it with a
diagnostic, leaving the mapping unchanged.  The claim says such a
record is processed rather than skipped. -/
theorem C6_record_skip_counterexample :
    isDict (JsonValue.obj [("filename", JsonValue.str "a.jpg")]) = true
    ∧ hasField (JsonValue.obj [("filename", JsonValue.str "a.jpg")]) "filename" = true
    ∧ malformedItem (JsonValue.obj [("filename", JsonValue.str "a.jpg")]) = true
    ∧ processJsonItem "r" true (fun _ => true) [("k", ["v"])]
        (JsonValue.obj [("filename", JsonValue.str "a.jpg")]) = .ok [("k", ["v"])] :=
  ⟨by decide, by decide, by decide, rfl⟩

/-- C6 amended: the structured-record extractor skips, with a
diagnostic, exactly those top-level records that are not record-shaped
or that lack the name field or that lack the caption field; a skipped
record leaves the mapping unchanged.  Only records that are
record-shaped and have BOTH fields are processed. -/
theorem C6_record_skip_rule (item : JsonValue) (ip : String) (vb : Bool)
    (ex : String → Bool) (m : CaptionMapping) :
    (malformedItem item = true ↔
      (isDict item = false ∨ hasField item "filename" = false
        ∨ hasField item "caption" = false))
    ∧ (malformedItem item = true → processJsonItem ip vb ex m item = .ok m) := by
  constructor
  · simp only [malformedItem, Bool.or_eq_true, Bool.not_eq_true']
    tauto
  · intro hmal
    simp only [processJsonItem, if_pos hmal]

/-- C6 amended witness: a record with only a filename is skipped and
the mapping is unchanged. -/
theorem C6_record_skip_rule_witness :
    malformedItem (JsonValue.obj [("filename", JsonValue.str "b.jpg")]) = true
    ∧ processJsonItem "r" false (fun _ => false) [("k2", ["w"])]
        (JsonValue.obj [("filename", JsonValue.str "b.jpg")]) = .ok [("k2", ["w"])] := by
  have h := C6_record_skip_rule (JsonValue.obj [("filename", JsonValue.str "b.jpg")])
    "r" false (fun _ => false) [("k2", ["w"])]
  exact ⟨h.1.2 (Or.inr (Or.inr (by decide))), h.2 (by decide)⟩

/-! ## C7 — within-file accumulation -/

/-- A qualifying spreadsheet row performs exactly one
`setdefault(..).append(..)` on the mapping. -/
theorem processXlsxRow_appends (sst : List String) (ip : String) (vb : Bool)
    (ex : String → Bool) (m : CaptionMapping) (row c0 c1 : XmlElem)
    (tl : List XmlElem) (n cap : String)
    (hf : row.children.filter (fun el => pyEndsWith el.tag "c") = c0 :: c1 :: tl)
    (h0 : get_cell_value sst c0 = some n) (hn : n ≠ "")
    (h1 : get_cell_value sst c1 = some cap) (hcap : cap ≠ "")
    (hval : (!vb || ex (if ip ≠ "" then joinPath ip (xlsxNormalizeName n)
        else xlsxNormalizeName n)) = true) :
    processXlsxRow sst ip vb ex m row =
      appendCaption m
        (if ip ≠ "" then joinPath ip (xlsxNormalizeName n) else xlsxNormalizeName n)
        ("<start> " ++ pyStrip cap ++ " <end>") := by
  simp only [processXlsxRow, hf]
  rw [h0]
  dsimp only
  rw [if_neg hn, if_pos hval, h1]
  dsimp only
  rw [if_neg hcap]

/-- A qualifying delimited-text row performs exactly one
`setdefault(..).append(..)` on the mapping. -/
theorem processCsvRow_appends (ip : String) (vb : Bool) (ex : String → Bool)
    (m : CaptionMapping) (row : CsvRow) (n cap : String)
    (h0 : rowGet row "caption_id" = some n)
    (h1 : rowGet row "bengali_caption" = some cap)
    (hne : ¬(n = "" ∨ cap = ""))
    (hval : (vb && !ex (if ip ≠ "" then joinPath ip (csvNormalizeName n)
        else csvNormalizeName n)) = false) :
    processCsvRow ip vb ex m row =
      appendCaption m
        (if ip ≠ "" then joinPath ip (csvNormalizeName n) else csvNormalizeName n)
        (" <start> " ++ pyStrip cap ++ " <end> ") := by
  simp only [processCsvRow, h0, h1]
  have hv2 : ¬((vb && !ex (if ip ≠ "" then joinPath ip (csvNormalizeName n)
      else csvNormalizeName n)) = true) := by
    intro hcontra
    rw [hval] at hcontra
    exact Bool.false_ne_true hcontra
  rw [if_neg hne, if_neg hv2]

/-- A kept structured record performs exactly one dict assignment. -/
theorem processJsonItem_good (ip : String) (vb : Bool) (ex : String → Bool)
    (m : CaptionMapping) (item : JsonValue) (fn : String) (raws : List JsonValue)
    (hfn : getField item "filename" = some (.str fn))
    (hcap : getField item "caption" = some (.arr raws))
    (hval : (!vb || ex (joinPath ip (pyStrip fn))) = true)
    (hne : jsonFormatCaptions raws ≠ []) :
    processJsonItem ip vb ex m item =
      .ok (assign m (joinPath ip (pyStrip fn)) (jsonFormatCaptions raws)) := by
  have hdict : isDict item = true := by
    cases item <;> first | rfl | simp [getField] at hfn
  have hmal : malformedItem item = false := by
    simp [malformedItem, hasField, hfn, hcap, hdict]
  simp only [processJsonItem]
  rw [if_neg (by simp [hmal]), hfn]
  dsimp only
  rw [hcap]
  dsimp only
  rw [if_pos hval, if_pos hne]

/-- C7: within one file's extraction pass, the spreadsheet and
delimited-text extractors append each new formatted caption —
`getVal` of the touched key becomes the previous sequence extended by
one, so prior captions are never replaced — whereas the
structured-record extractor assigns the whole caption sequence,
replacing whatever an earlier record of the same file stored at that
key. -/
theorem C7_within_file_accumulation
    (m : CaptionMapping) (k c : String) (vs : List String)
    (sst : List String) (ip : String) (vb : Bool) (ex : String → Bool)
    (row c0 c1 : XmlElem) (tl : List XmlElem) (n cap : String)
    (crow : CsvRow) (item : JsonValue) (fn : String) (raws : List JsonValue) :
    (getVal (appendCaption m k c) k = some ((getVal m k).getD [] ++ [c]))
    ∧ (getVal (assign m k vs) k = some vs)
    ∧ (row.children.filter (fun el => pyEndsWith el.tag "c") = c0 :: c1 :: tl →
       get_cell_value sst c0 = some n → n ≠ "" →
       get_cell_value sst c1 = some cap → cap ≠ "" →
       (!vb || ex (if ip ≠ "" then joinPath ip (xlsxNormalizeName n)
          else xlsxNormalizeName n)) = true →
       getVal (processXlsxRow sst ip vb ex m row)
           (if ip ≠ "" then joinPath ip (xlsxNormalizeName n) else xlsxNormalizeName n)
         = some ((getVal m (if ip ≠ "" then joinPath ip (xlsxNormalizeName n)
             else xlsxNormalizeName n)).getD []
           ++ ["<start> " ++ pyStrip cap ++ " <end>"]))
    ∧ (rowGet crow "caption_id" = some n →
       rowGet crow "bengali_caption" = some cap →
       ¬(n = "" ∨ cap = "") →
       (vb && !ex (if ip ≠ "" then joinPath ip (csvNormalizeName n)
          else csvNormalizeName n)) = false →
       getVal (processCsvRow ip vb ex m crow)
           (if ip ≠ "" then joinPath ip (csvNormalizeName n) else csvNormalizeName n)
         = some ((getVal m (if ip ≠ "" then joinPath ip (csvNormalizeName n)
             else csvNormalizeName n)).getD []
           ++ [" <start> " ++ pyStrip cap ++ " <end> "]))
    ∧ (getField item "filename" = some (.str fn) →
       getField item "caption" = some (.arr raws) →
       (!vb || ex (joinPath ip (pyStrip fn))) = true →
       jsonFormatCaptions raws ≠ [] →
       processJsonItem ip vb ex m item =
         .ok (assign m (joinPath ip (pyStrip fn)) (jsonFormatCaptions raws))
       ∧ getVal (assign m (joinPath ip (pyStrip fn)) (jsonFormatCaptions raws))
           (joinPath ip (pyStrip fn)) = some (jsonFormatCaptions raws)) := by
  refine ⟨getVal_appendCaption_self m k c, getVal_assign_self m k vs, ?_, ?_, ?_⟩
  · intro hf h0 hn h1 hcap hval
    rw [processXlsxRow_appends sst ip vb ex m row c0 c1 tl n cap hf h0 hn h1 hcap hval]
    exact getVal_appendCaption_self m _ _
  · intro h0 h1 hne hval
    rw [processCsvRow_appends ip vb ex m crow n cap h0 h1 hne hval]
    exact getVal_appendCaption_self m _ _
  · intro hfn hcap2 hval hne
    exact ⟨processJsonItem_good ip vb ex m item fn raws hfn hcap2 hval hne,
      getVal_assign_self m _ _⟩

/-- C7 witness: two spreadsheet rows for the same image accumulate
two captions; a structured record replaces a previously stored
value wholesale. -/
theorem C7_within_file_accumulation_witness :
    getVal (processXlsxRow [] "r" false (fun _ => false)
        [("r/p.jpg", ["<start> one <end>"])]
        (XmlElem.mk "row" none none
          [XmlElem.mk "c" none none [XmlElem.mk "v" none (some "p.jpg") []],
           XmlElem.mk "c" none none [XmlElem.mk "v" none (some "two") []]]))
      "r/p.jpg" = some ["<start> one <end>", "<start> two <end>"]
    ∧ processJsonItem "r" false (fun _ => false)
        [("r/a.jpg", ["<start>old "])]
        (JsonValue.obj [("filename", JsonValue.str "a.jpg"),
          ("caption", JsonValue.arr [JsonValue.str "new"])])
      = .ok [("r/a.jpg", ["<start>new "])] := by
  have h := C7_within_file_accumulation
    [("r/p.jpg", ["<start> one <end>"])] "r/p.jpg" "c" ["x"]
    [] "r" false (fun _ => false)
    (XmlElem.mk "row" none none
      [XmlElem.mk "c" none none [XmlElem.mk "v" none (some "p.jpg") []],
       XmlElem.mk "c" none none [XmlElem.mk "v" none (some "two") []]])
    (XmlElem.mk "c" none none [XmlElem.mk "v" none (some "p.jpg") []])
    (XmlElem.mk "c" none none [XmlElem.mk "v" none (some "two") []]) []
    "p.jpg" "two" [] (JsonValue.obj [("filename", JsonValue.str "a.jpg"),
      ("caption", JsonValue.arr [JsonValue.str "new"])]) "a.jpg"
    [JsonValue.str "new"]
  constructor
  · have h3 := h.2.2.1 rfl rfl (by decide) rfl (by decide) (by decide)
    simpa using h3
  · have h5 := (h.2.2.2.2 rfl rfl (by decide) (by decide)).1
    have h5b : processJsonItem "r" false (fun _ => false)
        [("r/a.jpg", ["<start>old "])]
        (JsonValue.obj [("filename", JsonValue.str "a.jpg"),
          ("caption", JsonValue.arr [JsonValue.str "new"])])
      = .ok (assign [("r/a.jpg", ["<start>old "])] (joinPath "r" (pyStrip "a.jpg"))
          (jsonFormatCaptions [JsonValue.str "new"])) := by
      have h6 := C7_within_file_accumulation
        [("r/a.jpg", ["<start>old "])] "k" "c" ["x"]
        [] "r" false (fun _ => false)
        (XmlElem.mk "row" none none []) (XmlElem.mk "c" none none [])
        (XmlElem.mk "c" none none []) [] "n" "cap" []
        (JsonValue.obj [("filename", JsonValue.str "a.jpg"),
          ("caption", JsonValue.arr [JsonValue.str "new"])]) "a.jpg"
        [JsonValue.str "new"]
      exact (h6.2.2.2.2 rfl rfl (by decide) (by decide)).1
    rw [h5b]
    rfl

/-! ## C8 — the fixed-name route has no fallback -/

theorem listStartsWith_head_ne (p1 p2 : Char) (ps1 ps2 l : List Char)
    (hne : p1 ≠ p2) (h : listStartsWith (p1 :: ps1) l = true) :
    listStartsWith (p2 :: ps2) l = false := by
  cases l with
  | nil => simp [listStartsWith] at h
  | cons c0 rest =>
    simp only [listStartsWith, Bool.and_eq_true, beq_iff_eq] at h
    have hc : c0 = p1 := h.1.symm
    subst hc
    have h2 : (p2 == c0) = false := beq_eq_false_iff_ne.2 (Ne.symm hne)
    simp [listStartsWith, h2]

theorem ends_csv_not_xlsx (s : String) (h : pyEndsWith s ".csv" = true) :
    pyEndsWith s ".xlsx" = false := by
  simp only [pyEndsWith] at h ⊢
  rw [show ".csv".data.reverse = ['v', 's', 'c', '.'] from rfl] at h
  rw [show ".xlsx".data.reverse = ['x', 's', 'l', 'x', '.'] from rfl]
  exact listStartsWith_head_ne 'v' 'x' _ _ _ (by decide) h

theorem ends_json_not_xlsx (s : String) (h : pyEndsWith s ".json" = true) :
    pyEndsWith s ".xlsx" = false := by
  simp only [pyEndsWith] at h ⊢
  rw [show ".json".data.reverse = ['n', 'o', 's', 'j', '.'] from rfl] at h
  rw [show ".xlsx".data.reverse = ['x', 's', 'l', 'x', '.'] from rfl]
  exact listStartsWith_head_ne 'n' 'x' _ _ _ (by decide) h

theorem ends_json_not_csv (s : String) (h : pyEndsWith s ".json" = true) :
    pyEndsWith s ".csv" = false := by
  simp only [pyEndsWith] at h ⊢
  rw [show ".json".data.reverse = ['n', 'o', 's', 'j', '.'] from rfl] at h
  rw [show ".csv".data.reverse = ['v', 's', 'c', '.'] from rfl]
  exact listStartsWith_head_ne 'n' 'v' _ _ _ (by decide) h

theorem json_name_ne_banglaview (s : String) (h : pyEndsWith s ".json" = true) :
    s ≠ "banglaview_dataset.xlsx" := by
  intro heq
  rw [heq] at h
  exact absurd h (by decide)

/-- The BanglaView route with its image directory absent runs no
extractor and contributes nothing. -/
theorem processFile_banglaview_skip (base : String) (vb : Bool)
    (ex : String → Bool) (root file : String) (c : FileContent)
    (hname : pyLower file = "banglaview_dataset.xlsx")
    (hdir : ex (joinPath (joinPath base "flickr30k_images") "flickr30k_images") = false) :
    processFile base vb ex root file c = none := by
  have hdir2 : ¬(ex (joinPath (joinPath base "flickr30k_images")
      "flickr30k_images") = true) := by
    intro hcon
    rw [hdir] at hcon
    exact Bool.false_ne_true hcon
  simp only [processFile, hname]
  rw [if_neg (by decide), if_neg (by decide), if_pos trivial, if_neg hdir2]

/-- C8: a file named (case-insensitively) `banglaview_dataset.xlsx`
with the designated flickr30k image directory absent is skipped
entirely: no extractor is invoked (the result does not depend on the
file's content), the walk continues over the surrounding files, and
the consolidated mapping is as if the file were not there.  Every
other route still invokes its extractor when its primary image
directory is absent, using its fallback image root instead. -/
theorem C8_fixed_name_route (base : String) (vb : Bool) (ex : String → Bool)
    (root file : String) (c c2 : FileContent) (w1 w2 : List WalkEntry)
    (rootx filex : String) (cx : FileContent)
    (filec : String) (cc : FileContent)
    (rootj filej : String) (cj : FileContent) :
    (pyLower file = "banglaview_dataset.xlsx" →
     ex (joinPath (joinPath base "flickr30k_images") "flickr30k_images") = false →
     processFile base vb ex root file c = none
     ∧ processFile base vb ex root file c = processFile base vb ex root file c2
     ∧ collect_all_caption_data base vb ex (w1 ++ ⟨root, file, c⟩ :: w2)
        = collect_all_caption_data base vb ex (w1 ++ w2))
    ∧ (pyEndsWith (pyLower filex) ".xlsx" = true →
       pyContains (pyLower filex) "captioning" = true →
       ex (joinPath rootx "image") = false →
       processFile base vb ex rootx filex cx
         = some (XLSXCaptionParser.extract true cx.asXlsx rootx vb ex))
    ∧ (pyEndsWith (pyLower filec) ".csv" = true →
       pyContains (pyLower filec) "ban-cap" = true →
       ex (joinPath (joinPath base "Flickr 8k Dataset") "Images") = false →
       processFile base vb ex root filec cc
         = some (CSVCaptionParser.extract cc.asCsv base vb ex))
    ∧ (pyEndsWith (pyLower filej) ".json" = true →
       pyContains (pyLower filej) "captions" = true →
       ex (joinPath rootj "images") = false →
       processFile base vb ex rootj filej cj
         = some (JSONCaptionParser.extract cj.asJson
             (joinPath (joinPath base "rxxch9vw59.2") "images") vb ex)) := by
  refine ⟨?_, ?_, ?_, ?_⟩
  · intro hname hdir
    have hskip := processFile_banglaview_skip base vb ex root file c hname hdir
    have hskip2 := processFile_banglaview_skip base vb ex root file c2 hname hdir
    refine ⟨hskip, by rw [hskip, hskip2], ?_⟩
    show (w1 ++ ⟨root, file, c⟩ :: w2).foldl (collectStep base vb ex) []
      = (w1 ++ w2).foldl (collectStep base vb ex) []
    rw [List.foldl_append, List.foldl_append, List.foldl_cons]
    have hstep : collectStep base vb ex (w1.foldl (collectStep base vb ex) [])
        ⟨root, file, c⟩ = w1.foldl (collectStep base vb ex) [] := by
      simp only [collectStep, hskip]
    rw [hstep]
  · intro hx hc hd
    have hd2 : ¬(ex (joinPath rootx "image") = true) := by
      intro hcon
      rw [hd] at hcon
      exact Bool.false_ne_true hcon
    simp only [processFile]
    rw [if_pos (by rw [hx, hc]; rfl), if_neg hd2]
  · intro hcsv hc hd
    have hd2 : ¬(ex (joinPath (joinPath base "Flickr 8k Dataset") "Images") = true) := by
      intro hcon
      rw [hd] at hcon
      exact Bool.false_ne_true hcon
    simp only [processFile]
    rw [if_neg (by rw [ends_csv_not_xlsx _ hcsv]; simp),
      if_pos (by rw [hcsv, hc]; rfl), if_neg hd2]
  · intro hjson hc hd
    have hd2 : ¬(ex (joinPath rootj "images") = true) := by
      intro hcon
      rw [hd] at hcon
      exact Bool.false_ne_true hcon
    simp only [processFile]
    rw [if_neg (by rw [ends_json_not_xlsx _ hjson]; simp),
      if_neg (by rw [ends_json_not_csv _ hjson]; simp),
      if_neg (json_name_ne_banglaview _ hjson),
      if_pos (by rw [hjson, hc]; rfl), if_neg hd2]

/-- C8 witness: a `BanglaView_Dataset.XLSX` file with the image
directory absent contributes nothing while its neighbours are still
processed, and each of the other three routes still extracts with its
fallback image root. -/
theorem C8_fixed_name_route_witness :
    collect_all_caption_data "b" false (fun _ => false)
      ([⟨"b", "first-ban-cap.csv",
          ⟨.badZip, .rows [[("caption_id", "a.jpg"), ("bengali_caption", "one")]], .openError⟩⟩]
       ++ ⟨"b", "BanglaView_Dataset.XLSX", ⟨.badZip, .readError, .openError⟩⟩
       :: [])
      = collect_all_caption_data "b" false (fun _ => false)
        ([⟨"b", "first-ban-cap.csv",
            ⟨.badZip, .rows [[("caption_id", "a.jpg"), ("bengali_caption", "one")]], .openError⟩⟩]
         ++ [])
    ∧ processFile "b" false (fun _ => false) "r" "my_captioning.xlsx"
        ⟨.badZip, .readError, .openError⟩
      = some (XLSXCaptionParser.extract true .badZip "r" false (fun _ => false))
    ∧ processFile "b" false (fun _ => false) "r" "x-ban-cap.csv"
        ⟨.badZip, .fileNotFound, .openError⟩
      = some (CSVCaptionParser.extract .fileNotFound "b" false (fun _ => false))
    ∧ processFile "b" false (fun _ => false) "r" "my_captions.json"
        ⟨.badZip, .fileNotFound, .decodeError⟩
      = some (JSONCaptionParser.extract .decodeError
          (joinPath (joinPath "b" "rxxch9vw59.2") "images") false (fun _ => false)) := by
  have h := C8_fixed_name_route "b" false (fun _ => false) "b" "BanglaView_Dataset.XLSX"
    ⟨.badZip, .readError, .openError⟩ ⟨.parseError, .readError, .openError⟩
    [⟨"b", "first-ban-cap.csv",
        ⟨.badZip, .rows [[("caption_id", "a.jpg"), ("bengali_caption", "one")]], .openError⟩⟩]
    [] "r" "my_captioning.xlsx" ⟨.badZip, .readError, .openError⟩
    "x-ban-cap.csv" ⟨.badZip, .fileNotFound, .openError⟩
    "r" "my_captions.json" ⟨.badZip, .fileNotFound, .decodeError⟩
  refine ⟨(h.1 (by decide) rfl).2.2, ?_, ?_, ?_⟩
  · exact h.2.1 (by decide) (by decide) rfl
  · exact h.2.2.1 (by decide) (by decide) rfl
  · exact h.2.2.2 (by decide) (by decide) rfl

/-! ## C9 — hash-suffix normalization (corrected) -/

/-- C9 counterexample: for the raw spreadsheet name `"*MG*1#0"`, the
substring before the first `'#'` is `"*MG*1"`, but the key built by
the row is `"r/IMG_1"` — the `*MG*` placeholder is rewritten after the
hash strip — and no entry exists at the join of the image root with
the before-hash substring. -/
theorem C9_hash_normalization_counterexample :
    takeBeforeHash "*MG*1#0" = "*MG*1"
    ∧ processXlsxRow [] "r" false (fun _ => false) []
        (XmlElem.mk "row" none none
          [XmlElem.mk "c" none none [XmlElem.mk "v" none (some "*MG*1#0") []],
           XmlElem.mk "c" none none [XmlElem.mk "v" none (some "hi") []]])
      = [("r/IMG_1", ["<start> hi <end>"])]
    ∧ getVal (processXlsxRow [] "r" false (fun _ => false) []
        (XmlElem.mk "row" none none
          [XmlElem.mk "c" none none [XmlElem.mk "v" none (some "*MG*1#0") []],
           XmlElem.mk "c" none none [XmlElem.mk "v" none (some "hi") []]]))
        (joinPath "r" (takeBeforeHash "*MG*1#0")) = none :=
  ⟨by decide, by decide, by decide⟩

/-- C9 amended: for every raw image name containing `'#'`, the
delimited-text extractor builds its image path from exactly the
substring before the first `'#'`, while the spreadsheet extractor
builds it from that substring with every `"*MG*"` occurrence
rewritten to `"IMG_"` (so the two agree only when the substring holds
no placeholder). -/
theorem C9_hash_normalization (raw cap : String) (ip : String) (vb : Bool)
    (ex : String → Bool) (m : CaptionMapping) (crow : CsvRow)
    (h : pyContains raw "#" = true) :
    csvNormalizeName raw = takeBeforeHash raw
    ∧ xlsxNormalizeName raw = pyReplace (takeBeforeHash raw) "*MG*" "IMG_"
    ∧ (rowGet crow "caption_id" = some raw →
       rowGet crow "bengali_caption" = some cap →
       ¬(raw = "" ∨ cap = "") →
       (vb && !ex (if ip ≠ "" then joinPath ip (takeBeforeHash raw)
          else takeBeforeHash raw)) = false →
       processCsvRow ip vb ex m crow =
         appendCaption m
           (if ip ≠ "" then joinPath ip (takeBeforeHash raw) else takeBeforeHash raw)
           (" <start> " ++ pyStrip cap ++ " <end> ")) := by
  have hcsv : csvNormalizeName raw = takeBeforeHash raw := by
    simp [csvNormalizeName, h]
  refine ⟨hcsv, by simp [xlsxNormalizeName, h], ?_⟩
  intro h0 h1 hne hval
  rw [← hcsv] at hval
  rw [processCsvRow_appends ip vb ex m crow raw cap h0 h1 hne hval, hcsv]

/-- C9 amended witness: the row `("a#b", "hi")` of a delimited-text
file keys its caption under the before-hash substring `"a"`. -/
theorem C9_hash_normalization_witness :
    csvNormalizeName "a#b" = takeBeforeHash "a#b"
    ∧ xlsxNormalizeName "a#b" = pyReplace (takeBeforeHash "a#b") "*MG*" "IMG_"
    ∧ processCsvRow "r" false (fun _ => false) []
        [("caption_id", "a#b"), ("bengali_caption", "hi")] =
      appendCaption []
        (if "r" ≠ "" then joinPath "r" (takeBeforeHash "a#b") else takeBeforeHash "a#b")
        (" <start> hi <end> ") := by
  have h := C9_hash_normalization "a#b" "hi" "r" false (fun _ => false) []
    [("caption_id", "a#b"), ("bengali_caption", "hi")] (by decide)
  exact ⟨h.1, h.2.1, h.2.2 rfl rfl (by decide) (by decide)⟩

/-! ## C10 — structured-record keys carry the raw name -/

/-- C10: for every kept structured record, the mapping key is exactly
`os.path.join(image_root, filename.strip())` — no `'#'`-suffix
stripping and no `*MG*` placeholder rewriting is applied, even when
the raw filename contains them (the key below is the untouched
trimmed `s`, for every `s`). -/
theorem C10_json_key_is_raw_name (ip : String) (vb : Bool) (ex : String → Bool)
    (m : CaptionMapping) (item : JsonValue) (s : String) (caps : List JsonValue)
    (hfn : getField item "filename" = some (.str s))
    (hcap : getField item "caption" = some (.arr caps))
    (hval : (!vb || ex (joinPath ip (pyStrip s))) = true)
    (hne : jsonFormatCaptions caps ≠ []) :
    processJsonItem ip vb ex m item =
      .ok (assign m (joinPath ip (pyStrip s)) (jsonFormatCaptions caps))
    ∧ getVal (exceptVal (processJsonItem ip vb ex m item)) (joinPath ip (pyStrip s))
      = some (jsonFormatCaptions caps) := by
  have hgood := processJsonItem_good ip vb ex m item s caps hfn hcap hval hne
  refine ⟨hgood, ?_⟩
  rw [hgood]
  exact getVal_assign_self m _ _

/-- C10 witness: a filename holding both `'#'` and the `*MG*`
placeholder is used untouched (apart from trimming) as the key. -/
theorem C10_json_key_is_raw_name_witness :
    processJsonItem "r" false (fun _ => false) []
      (JsonValue.obj [("filename", JsonValue.str " a#1*MG*b.jpg "),
        ("caption", JsonValue.arr [JsonValue.str "x"])])
      = .ok (assign [] (joinPath "r" (pyStrip " a#1*MG*b.jpg "))
          (jsonFormatCaptions [JsonValue.str "x"]))
    ∧ joinPath "r" (pyStrip " a#1*MG*b.jpg ") = "r/a#1*MG*b.jpg" := by
  have h := C10_json_key_is_raw_name "r" false (fun _ => false) []
    (JsonValue.obj [("filename", JsonValue.str " a#1*MG*b.jpg "),
      ("caption", JsonValue.arr [JsonValue.str "x"])])
    " a#1*MG*b.jpg " [JsonValue.str "x"] rfl rfl (by decide) (by decide)
  exact ⟨h.1, by decide⟩
